import Mathlib

/-!
Shallow embedding of the MegaETH analytics core
(`src/services/contract-analyzer.ts` and `src/services/analytics.ts`).

JavaScript strings are modelled as `List Char` (`JStr`): `toLowerCase`
becomes `List.map Char.toLower`, `String.prototype.includes` becomes
infix containment, `substring(0, n)` becomes `List.take n`, and JS
string equality becomes list equality.  Numbers that the code only ever
adds, compares and divides as integers (gas, counts, block numbers) are
modelled as `Nat`; ETH values and averages that the code manipulates as
JS floating-point numbers are modelled as exact rationals `ℚ` (the code
stays far below the 2^53 precision limit, so rational arithmetic is the
intended semantics of those expressions).  Fallible RPC calls are
modelled as `Option`-valued oracles in an `Env` record: `none` stands
for a rejected promise or a `null` response, which the code handles via
`try`/`catch` + `continue`/fallback.
-/

/-- A JavaScript string: a list of characters. -/
abbrev JStr := List Char

/-- `s.toLowerCase()` on a JS string. -/
def jsToLower (s : JStr) : JStr := s.map Char.toLower

/-- Helper for `jsIncludes`: does `pat` occur as a contiguous run of `s`?
Checks `pat` against every tail of `s`. -/
def containsSeq (pat : JStr) : JStr → Bool
  | [] => pat.isEmpty
  | c :: rest => pat.isPrefixOf (c :: rest) || containsSeq pat rest

/-- `s.includes(pat)` on JS strings: substring containment (anywhere, not
just at the start). -/
def jsIncludes (s pat : JStr) : Bool := containsSeq pat s

/-- `Math.round(a / b)` for non-negative integers `a`, `b` with `b > 0`,
i.e. `⌊a/b + 1/2⌋`, computed over `Nat`. -/
def jsRoundDiv (a b : Nat) : Nat := (2 * a + b) / (2 * b)

/-- `Math.round(q)` for a non-negative rational: `⌊q + 1/2⌋`. -/
def mathRound (q : ℚ) : ℤ := ⌊q + 1 / 2⌋

/-- `ContractAnalyzer.identifyContractType` (contract-analyzer.ts
lines 178-217): given `tx.data` and `receipt.gasUsed`, test each known
4-byte selector with `data.includes(...)` on the lowercased call-data, in
the source's fixed order, and fall back to gas-usage bands.  The
surrounding `try`/`catch` can never fire (the body only reads fields), so
it is not modelled. -/
def identifyContractType (txData : JStr) (gasUsed : Nat) : String :=
  if txData ≠ [] then
    let data := jsToLower txData
    if jsIncludes data "a9059cbb".data then "ERC20 Token"
    else if jsIncludes data "23b872dd".data then "ERC20 Token"
    else if jsIncludes data "095ea7b3".data then "ERC20 Token"
    else if jsIncludes data "42842e0e".data then "ERC721 NFT"
    else if jsIncludes data "b88d4fde".data then "ERC721 NFT"
    else if jsIncludes data "1f00ca74".data then "DEX"
    else if jsIncludes data "38ed1739".data then "DEX"
    else if jsIncludes data "7ff36ab5".data then "DEX"
    else if jsIncludes data "b6b55f25".data then "Lending"
    else if jsIncludes data "69328dec".data then "Lending"
    else if jsIncludes data "c5ebeaec".data then "Lending"
    else if jsIncludes data "e2bbb158".data then "Staking"
    else if jsIncludes data "2e1a7d4d".data then "Staking"
    else if gasUsed > 1000000 then "Complex DeFi"
    else if gasUsed > 500000 then "Multi-Function"
    else if gasUsed > 100000 then "Standard Contract"
    else "Unknown"
  else "Unknown"

/-- The classifier's closed selector table, in the source's fixed order
(ERC20 first, then ERC721, DEX, Lending, Staking). -/
def contractTypeTable : List (JStr × String) :=
  [("a9059cbb".data, "ERC20 Token"), ("23b872dd".data, "ERC20 Token"),
   ("095ea7b3".data, "ERC20 Token"), ("42842e0e".data, "ERC721 NFT"),
   ("b88d4fde".data, "ERC721 NFT"), ("1f00ca74".data, "DEX"),
   ("38ed1739".data, "DEX"), ("7ff36ab5".data, "DEX"),
   ("b6b55f25".data, "Lending"), ("69328dec".data, "Lending"),
   ("c5ebeaec".data, "Lending"), ("e2bbb158".data, "Staking"),
   ("2e1a7d4d".data, "Staking")]

/-- The gas-usage-band fallback of the contract-type classifier. -/
def gasBandLabel (gasUsed : Nat) : String :=
  if gasUsed > 1000000 then "Complex DeFi"
  else if gasUsed > 500000 then "Multi-Function"
  else if gasUsed > 100000 then "Standard Contract"
  else "Unknown"

/-- First label of the table whose selector occurs as a LEADING selector:
`sel` must equal the given leading 8 hex digits exactly. -/
def leadingLookup (leading : JStr) : List (JStr × String) → Option String
  | [] => none
  | (sel, label) :: rest =>
    if sel = leading then some label else leadingLookup leading rest

/-- First label of the table whose selector occurs ANYWHERE in the given
call-data string (JS `String.includes` semantics). -/
def includesLookup (data : JStr) : List (JStr × String) → Option String
  | [] => none
  | (sel, label) :: rest =>
    if jsIncludes data sel then some label else includesLookup data rest

/-- Contract-type inference as worded by the claim: the table of known
4-byte selectors is checked against the LEADING call-data bytes (the
first 8 hex digits after the `0x` marker), first match wins, otherwise
the gas-band fallback applies. -/
def claimContractType (txData : JStr) (gasUsed : Nat) : String :=
  let leading := ((jsToLower txData).drop 2).take 8
  (leadingLookup leading contractTypeTable).getD (gasBandLabel gasUsed)

/-- Contract-type inference as amended: each selector of the table is
tested for occurrence ANYWHERE in the lowercased call-data string
(JS `String.includes`), in the table's fixed order, first match wins;
when no selector occurs, the gas-band fallback applies. -/
def amendedContractType (txData : JStr) (gasUsed : Nat) : String :=
  (includesLookup (jsToLower txData) contractTypeTable).getD (gasBandLabel gasUsed)

/-- C1 equivalence proof step: the code's hand-rolled `if`-chain agrees
with the table-driven amended classifier wherever call-data is present. -/
theorem identifyContractType_eq_amended (txData : JStr) (gasUsed : Nat)
    (h : txData ≠ []) :
    identifyContractType txData gasUsed = amendedContractType txData gasUsed := by
  rw [identifyContractType, if_pos h]
  simp only [amendedContractType, contractTypeTable, includesLookup,
    apply_ite (fun o : Option String => o.getD (gasBandLabel gasUsed)),
    Option.getD_some, Option.getD_none]
  rfl

/-- C1: the classifier checks selectors by SUBSTRING containment
(`data.includes(...)`), not against the leading call-data bytes only.
On call-data `0x00000000a9059cbb` (leading selector `00000000`, the ERC20
`transfer` selector appearing later in the data) with `gasUsed = 50000`,
the claim's leading-bytes reading predicts the gas-band fallback
"Unknown", but the code returns "ERC20 Token". -/
theorem identifyContractType_not_leading_only :
    identifyContractType "0x00000000a9059cbb".data 50000 = "ERC20 Token" ∧
    claimContractType "0x00000000a9059cbb".data 50000 = "Unknown" ∧
    ("ERC20 Token" : String) ≠ "Unknown" := by
  refine ⟨by decide, by decide, by decide⟩

/-- Witness for C1's amended theorem: the spec's own scenario.  Call-data
`0xa9059cbb` with `gasUsed = 2,000,000` is non-empty, the code agrees with
the amended table-driven classifier there, and both classify it as
"ERC20 Token" (the selector match wins over the "Complex DeFi" gas band). -/
theorem identifyContractType_eq_amended_witness :
    "0xa9059cbb".data ≠ ([] : JStr) ∧
    identifyContractType "0xa9059cbb".data 2000000 =
      amendedContractType "0xa9059cbb".data 2000000 ∧
    identifyContractType "0xa9059cbb".data 2000000 = "ERC20 Token" :=
  ⟨by decide, identifyContractType_eq_amended "0xa9059cbb".data 2000000 (by decide),
   by decide⟩

/-- An ethers `TransactionResponse` as the scan uses it: `from_` stands
for the JS field `from` (a Lean keyword). -/
structure Tx where
  hash : JStr
  from_ : JStr
  «to» : Option JStr
  value : Nat
  data : JStr

/-- An ethers `TransactionReceipt` as the scan uses it. -/
structure Receipt where
  status : Nat
  gasUsed : Nat
  contractAddress : Option JStr
  blockNumber : Nat

/-- The loosely-typed transaction object (`tx: any`) consumed by
`MegaETHAnalytics.categorizeTransaction`: `value` is a bigint (the JS
checks `tx.value && tx.value !== '0'` amount to `value ≠ 0` on a bigint,
since a bigint is never strictly equal to a string), and `input` is
`none` when the property is absent (as for ethers transactions, which
carry `data` instead of `input`). -/
structure LooseTx where
  «to» : Option JStr
  value : Nat
  input : Option JStr

/-- The per-transaction branch of `MegaETHAnalytics.analyzeBlockTransactions`
(analytics.ts, combined-file lines 478-484): no recipient counts as
"Contract Deploy", recipient with call-data `0x` as "Transfer", any other
recipient as "Contract Call". -/
def blockTxCategory (tx : Tx) : String :=
  match tx.to with
  | none => "Contract Deploy"
  | some _ => if tx.data = "0x".data then "Transfer" else "Contract Call"

/-- `MegaETHAnalytics.analyzeBlockTransactions` (combined-file lines
469-500): fetch up to the first 10 hashes, tally the three categories,
and render counts with a rounded percentage of the analyzed total. -/
def analyzeBlockTransactions (getTx : JStr → Option Tx) (txHashes : List JStr) :
    List (String × Nat × Nat) :=
  let counts := (txHashes.take 10).foldl
    (fun (c : Nat × Nat × Nat) h =>
      match getTx h with
      | none => c
      | some tx =>
        match tx.to with
        | none => (c.1, c.2.1, c.2.2 + 1)
        | some _ =>
          if tx.data = "0x".data then (c.1 + 1, c.2.1, c.2.2)
          else (c.1, c.2.1 + 1, c.2.2))
    (0, 0, 0)
  let total := counts.1 + counts.2.1 + counts.2.2
  [("Transfer", counts.1, if total > 0 then jsRoundDiv (counts.1 * 100) total else 0),
   ("Contract Call", counts.2.1,
     if total > 0 then jsRoundDiv (counts.2.1 * 100) total else 0),
   ("Contract Deploy", counts.2.2,
     if total > 0 then jsRoundDiv (counts.2.2 * 100) total else 0)]

/-- `MegaETHAnalytics.categorizeTransaction` (combined-file lines
897-902): deploy when no recipient, "Transfer" when the VALUE is nonzero,
"Contract Call" when the `input` property is a non-empty string other
than `0x`, and "Unknown" otherwise. -/
def categorizeTransaction (tx : LooseTx) : String :=
  match tx.to with
  | none => "Contract Deploy"
  | some _ =>
    if tx.value ≠ 0 then "Transfer"
    else
      match tx.input with
      | some s => if s ≠ [] ∧ s ≠ "0x".data then "Contract Call" else "Unknown"
      | none => "Unknown"

/-- The transaction category as the claim words it, on a recipient field
and a call-data string: no recipient means "Contract Deploy", an empty
(zero-byte) call-data means "Transfer", anything else "Contract Call". -/
def specTxCategory («to» : Option JStr) (callData : JStr) : String :=
  match «to» with
  | none => "Contract Deploy"
  | some _ => if callData.drop 2 = [] then "Transfer" else "Contract Call"

/-- A well-formed hex-encoded call-data string: `0x` followed by hex
digits.  ethers always normalizes `data` to this shape. -/
def WellFormedHex (d : JStr) : Prop := ∃ rest, d = '0' :: 'x' :: rest

/-- C2 counterexample input: a transaction with a recipient, zero value
and empty (`0x`) call-data.  The claim's precedence makes it a
"Transfer"; `categorizeTransaction` returns "Unknown". -/
theorem categorizeTransaction_not_claim_precedence :
    categorizeTransaction ⟨some "0xaaaa".data, 0, some "0x".data⟩ = "Unknown" ∧
    specTxCategory (some "0xaaaa".data) "0x".data = "Transfer" ∧
    ("Unknown" : String) ≠ "Transfer" :=
  ⟨by decide, by decide, by decide⟩

/-- C2 (amended): the per-transaction branch of `analyzeBlockTransactions`
follows the claimed precedence (no recipient → "Contract Deploy";
recipient and empty call-data → "Transfer"; otherwise "Contract Call"),
while `categorizeTransaction` instead decides: no recipient →
"Contract Deploy"; nonzero value → "Transfer"; non-empty `input` other
than `0x` → "Contract Call"; otherwise "Unknown". -/
theorem txCategorizers_decision :
    (∀ tx : Tx, WellFormedHex tx.data →
      blockTxCategory tx = specTxCategory tx.to tx.data) ∧
    (∀ tx : LooseTx,
      categorizeTransaction tx =
        if tx.to = none then "Contract Deploy"
        else if tx.value ≠ 0 then "Transfer"
        else if tx.input.getD [] ≠ [] ∧ tx.input.getD [] ≠ "0x".data then
          "Contract Call"
        else "Unknown") := by
  constructor
  · rintro ⟨h, f, t, v, d⟩ ⟨rest, hrest⟩
    cases hrest
    cases t with
    | none => rfl
    | some a =>
      simp only [blockTxCategory, specTxCategory]
      cases rest with
      | nil => simp
      | cons c cs =>
        rw [if_neg (by simp), if_neg (by simp)]
  · rintro ⟨t, v, i⟩
    cases t with
    | none => rfl
    | some a =>
      cases i with
      | none => simp [categorizeTransaction]
      | some s => simp [categorizeTransaction]

/-- Witness for C2's theorem: a transfer-shaped ethers transaction with
well-formed non-empty call-data, and a zero-value loose transaction. -/
theorem txCategorizers_decision_witness :
    blockTxCategory ⟨"0xt1".data, "0xsender".data, some "0xrecipient".data, 0,
        "0xab".data⟩ =
      specTxCategory (some "0xrecipient".data) "0xab".data ∧
    categorizeTransaction ⟨some "0xaaaa".data, 7, some "0x".data⟩ = "Transfer" :=
  ⟨txCategorizers_decision.1 _ ⟨['a', 'b'], rfl⟩, by
    rw [txCategorizers_decision.2 ⟨some "0xaaaa".data, 7, some "0x".data⟩]
    decide⟩

/-- The per-block sample size of `discoverActiveContracts`
(contract-analyzer.ts line 62): `Math.min(50, blockTxCount)`. -/
def sampleSize (n : Nat) : Nat := min 50 n

/-- The sampling stride (line 63):
`Math.max(1, Math.floor(blockTxCount / sampleSize))`. -/
def sampleStep (n : Nat) : Nat := max 1 (n / sampleSize n)

/-- The index loop `for (j = 0; j < n; j += step)` (line 65), with an
explicit fuel argument for structural recursion.  The step is always at
least 1 in the source (`sampleStep`), so `n` units of fuel are enough to
reach the exit condition. -/
def strideFrom (n step : Nat) : Nat → Nat → List Nat
  | 0, _ => []
  | fuel + 1, j => if j < n then j :: strideFrom n step fuel (j + step) else []

/-- The transaction indices sampled from a block with `n` transactions. -/
def sampledIdx (n : Nat) : List Nat := strideFrom n (sampleStep n) n 0

/-- How many transaction hashes get sampled from a block with `n`
transactions. -/
def sampleCount (n : Nat) : Nat := (sampledIdx n).length

/-- The transaction hashes sampled from a block's transaction list
(every `sampleStep`-th hash starting at index 0). -/
def sampledHashes (txs : List JStr) : List JStr :=
  (sampledIdx txs.length).filterMap (fun j => txs[j]?)

/-- The index loop is an arithmetic progression: starting from `j` it
visits `⌈(n-j)/step⌉` indices spaced `step` apart. -/
theorem strideFrom_eq_range' (n step : Nat) (hs : 0 < step) :
    ∀ fuel j, n - j ≤ fuel →
      strideFrom n step fuel j = List.range' j ((n - j + step - 1) / step) step := by
  intro fuel
  induction fuel with
  | zero =>
    intro j hj
    have hnj : n - j = 0 := by omega
    rw [strideFrom, hnj, Nat.div_eq_of_lt (by omega), List.range']
  | succ fuel ih =>
    intro j hj
    rw [strideFrom]
    by_cases hlt : j < n
    · rw [if_pos hlt, ih (j + step) (by omega)]
      have harith : (n - j + step - 1) / step = (n - (j + step) + step - 1) / step + 1 := by
        rcases Nat.le_total step (n - j) with hcase | hcase
        · have h1 : n - j + step - 1 = (n - j - 1) + step := by omega
          have h2 : n - (j + step) + step - 1 = n - j - 1 := by omega
          rw [h1, h2, Nat.add_div_right _ hs]
        · have h1 : n - (j + step) = 0 := by omega
          have hL : (n - j + step - 1) / step = 1 :=
            Nat.div_eq_of_lt_le (k := 1) (by omega) (by omega)
          have hR : (n - (j + step) + step - 1) / step = 0 :=
            Nat.div_eq_of_lt (by omega)
          rw [hL, hR]
      rw [harith, List.range'_succ]
    · rw [if_neg hlt]
      have hnj : n - j = 0 := by omega
      rw [hnj, Nat.div_eq_of_lt (by omega), List.range']

/-- The stride is always positive. -/
theorem sampleStep_pos (n : Nat) : 0 < sampleStep n :=
  Nat.lt_of_lt_of_le Nat.zero_lt_one (le_max_left 1 (n / sampleSize n))

/-- A `filterMap` whose function always hits keeps the length. -/
theorem length_filterMap_isSome {α β : Type} (f : α → Option β) :
    ∀ l : List α, (∀ a ∈ l, (f a).isSome) → (l.filterMap f).length = l.length := by
  intro l h
  induction l with
  | nil => rfl
  | cons a l ih =>
    have ha := h a (List.mem_cons_self a l)
    rcases hfa : f a with _ | b
    · rw [hfa] at ha
      simp at ha
    · simp only [List.filterMap_cons, hfa, List.length_cons]
      rw [ih (fun x hx => h x (List.mem_cons_of_mem a hx))]

/-- Every sampled index is in bounds. -/
theorem sampledIdx_lt (n : Nat) : ∀ j ∈ sampledIdx n, j < n := by
  intro j hj
  have hstep := sampleStep_pos n
  rw [sampledIdx, strideFrom_eq_range' n (sampleStep n) hstep n 0 (by omega)] at hj
  rw [List.mem_range'] at hj
  obtain ⟨i, hi, rfl⟩ := hj
  have h1 : i + 1 ≤ (n - 0 + sampleStep n - 1) / sampleStep n := hi
  rw [Nat.le_div_iff_mul_le hstep] at h1
  have h2 : (i + 1) * sampleStep n = i * sampleStep n + sampleStep n := by ring
  rw [h2] at h1
  have h3 : sampleStep n * i = i * sampleStep n := by ring
  omega

/-- C3 (amended): the sampler computes `sampleSize = min(50, n)` and
`stride = max(1, ⌊n / sampleSize⌋)` and selects the arithmetic
progression of indices `0, stride, 2·stride, …` below `n`, which contains
`⌈n / stride⌉` indices — so one sampled hash per index; a 500-transaction
block yields stride 10 and exactly 50 samples, but the count is NOT capped
at 50 in general (see the counterexample at `n = 51`). -/
theorem sampler_characterization (n : Nat) :
    sampledIdx n =
      List.range' 0 ((n + sampleStep n - 1) / sampleStep n) (sampleStep n) ∧
    sampleCount n = (n + sampleStep n - 1) / sampleStep n ∧
    (∀ txs : List JStr, (sampledHashes txs).length = sampleCount txs.length) ∧
    sampleStep 500 = 10 ∧ sampleCount 500 = 50 := by
  have hstep := sampleStep_pos n
  have hidx : sampledIdx n =
      List.range' 0 ((n + sampleStep n - 1) / sampleStep n) (sampleStep n) := by
    rw [sampledIdx, strideFrom_eq_range' n (sampleStep n) hstep n 0 (by omega),
      Nat.sub_zero]
  refine ⟨hidx, ?_, ?_, by decide, by decide⟩
  · rw [sampleCount, hidx, List.length_range']
  · intro txs
    rw [sampledHashes, sampleCount,
      length_filterMap_isSome _ _ (fun j hj => ?_)]
    rw [List.getElem?_eq_getElem (sampledIdx_lt txs.length j hj)]
    rfl

/-- C3: the number of sampled hashes per block is NOT capped at 50: a
block with 51 transactions has `sampleSize = 50`, stride
`max(1, ⌊51/50⌋) = 1`, and the loop then samples all 51 hashes. -/
theorem sampleCount_can_exceed_ceiling :
    sampleCount 51 = 51 ∧ ¬ sampleCount 51 ≤ 50 := by
  refine ⟨by decide, by decide⟩

/-- `ContractInfo` (contract-analyzer.ts lines 6-19).  `firstSeen` and
`lastActivity` hold JS epoch-milliseconds (`new Date(ts * 1000)`); the JS
`Set` of callers becomes a `Finset`, the JS `Map` of signature counts an
insertion-ordered association list. -/
structure ContractInfo where
  address : JStr
  creator : JStr
  creationHash : JStr
  creationBlock : Nat
  contractType : String
  firstSeen : Nat
  lastActivity : Nat
  totalInteractions : Nat
  uniqueCallers : Finset JStr
  functionSignatures : List (JStr × Nat)
  gasUsed : Nat
  isVerified : Bool
  deriving DecidableEq

/-- The `contracts` JS `Map`: an association list in insertion order. -/
abbrev CMap := List (JStr × ContractInfo)

/-- `contracts.get(k)`. -/
def mapGet (m : CMap) (k : JStr) : Option ContractInfo :=
  (m.find? (fun p => p.1 == k)).map (fun p => p.2)

/-- `contracts.set(k, v)`: JS `Map.set` keeps the original position of an
existing key and appends a new key at the end. -/
def mapSet (m : CMap) (k : JStr) (v : ContractInfo) : CMap :=
  if m.any (fun p => p.1 == k) then
    m.map (fun p => if p.1 == k then (k, v) else p)
  else m ++ [(k, v)]

/-- `functionSignatures.set(sig, (functionSignatures.get(sig) || 0) + 1)`. -/
def sigBump (sigs : List (JStr × Nat)) (sig : JStr) : List (JStr × Nat) :=
  if sigs.any (fun p => p.1 == sig) then
    sigs.map (fun p => if p.1 == sig then (p.1, p.2 + 1) else p)
  else sigs ++ [(sig, 1)]

/-- `ContractAnalyzer.analyzeContractInteraction` (lines 105-147): get or
create the record for the lowercased recipient, then bump interactions,
callers (lowercased sender), gas, last activity, and — when the call-data
has at least 10 characters — the 4-byte signature counter. -/
def analyzeContractInteraction (tx : Tx) (receipt : Receipt)
    (contracts : CMap) (blockTimestamp : Nat) : CMap :=
  match tx.to with
  | none => contracts
  | some toAddr =>
    let contractAddress := jsToLower toAddr
    let base :=
      match mapGet contracts contractAddress with
      | some ci => ci
      | none =>
        { address := contractAddress
          creator := "unknown".data
          creationHash := "unknown".data
          creationBlock := 0
          contractType := identifyContractType tx.data receipt.gasUsed
          firstSeen := blockTimestamp * 1000
          lastActivity := blockTimestamp * 1000
          totalInteractions := 0
          uniqueCallers := ∅
          functionSignatures := []
          gasUsed := 0
          isVerified := false }
    let updated :=
      { base with
        totalInteractions := base.totalInteractions + 1
        uniqueCallers := insert (jsToLower tx.from_) base.uniqueCallers
        gasUsed := base.gasUsed + receipt.gasUsed
        lastActivity := blockTimestamp * 1000
        functionSignatures :=
          if tx.data.length ≥ 10 then sigBump base.functionSignatures (tx.data.take 10)
          else base.functionSignatures }
    mapSet contracts contractAddress updated

/-- `ContractAnalyzer.analyzeContractDeployment` (lines 149-176): store a
fresh record under the lowercased created-contract address. -/
def analyzeContractDeployment (tx : Tx) (receipt : Receipt)
    (contracts : CMap) (blockTimestamp : Nat) : CMap :=
  match receipt.contractAddress with
  | none => contracts
  | some ca =>
    let contractAddress := jsToLower ca
    mapSet contracts contractAddress
      { address := contractAddress
        creator := jsToLower tx.from_
        creationHash := tx.hash
        creationBlock := receipt.blockNumber
        contractType := identifyContractType tx.data receipt.gasUsed
        firstSeen := blockTimestamp * 1000
        lastActivity := blockTimestamp * 1000
        totalInteractions := 1
        uniqueCallers := {jsToLower tx.from_}
        functionSignatures := []
        gasUsed := receipt.gasUsed
        isVerified := false }

/-- The dispatch inside `discoverActiveContracts`'s transaction loop
(lines 77-83): recipient present → interaction; otherwise, a receipt with
a created contract address → deployment; otherwise nothing. -/
def processTx (contracts : CMap) (blockTimestamp : Nat)
    (tx : Tx) (receipt : Receipt) : CMap :=
  match tx.to with
  | some _ => analyzeContractInteraction tx receipt contracts blockTimestamp
  | none =>
    if (receipt.contractAddress).isSome then
      analyzeContractDeployment tx receipt contracts blockTimestamp
    else contracts

/-- An RPC block as the scan reads it (`block.transactions` may be
absent, which the code guards with `!block.transactions`). -/
structure Block where
  timestamp : Nat
  transactions : Option (List JStr)

/-- The chain-client oracle: each call either fails/returns `null`
(`none`) or yields a value.  A single run of the scan sees fixed
responses. -/
structure Env where
  blockNumber : Option Nat
  getBlock : Nat → Option Block
  getTransaction : JStr → Option Tx
  getTransactionReceipt : JStr → Option Receipt

/-- One iteration of the sampled-hash loop (lines 65-89): fetch
transaction and receipt; on any failure or `null`, skip. -/
def processHash (env : Env) (blockTimestamp : Nat)
    (contracts : CMap) (txHash : JStr) : CMap :=
  match env.getTransaction txHash, env.getTransactionReceipt txHash with
  | some tx, some receipt => processTx contracts blockTimestamp tx receipt
  | _, _ => contracts

/-- One iteration of the block loop (lines 53-92): a failed block fetch or
a missing transaction list skips the block. -/
def processBlock (env : Env) (blockNumber : Nat) (contracts : CMap) : CMap :=
  match env.getBlock blockNumber with
  | none => contracts
  | some block =>
    match block.transactions with
    | none => contracts
    | some txs => (sampledHashes txs).foldl (processHash env block.timestamp) contracts

/-- The contract map accumulated over the scanned window. -/
def scanContracts (env : Env) (blocksToAnalyze : Nat) (currentBlock : Nat) : CMap :=
  (List.range blocksToAnalyze).foldl
    (fun acc i => processBlock env (currentBlock - i) acc) []

/-- The comparator `(a, b) => b.totalInteractions - a.totalInteractions`
passed to `Array.prototype.sort`: `a` sorts no later than `b` exactly when
`b.totalInteractions ≤ a.totalInteractions`. -/
def byInteractionsDesc (a b : ContractInfo) : Bool :=
  decide (b.totalInteractions ≤ a.totalInteractions)

/-- `ContractAnalyzer.discoverActiveContracts` (lines 45-103): on a failed
height fetch the outer `catch` returns `[]`; otherwise scan the window and
return the map's values (insertion order) sorted by descending
`totalInteractions`.  ECMAScript requires `Array.prototype.sort` to be
stable, so the sort is modelled by the stable `List.mergeSort`. -/
def discoverActiveContracts (env : Env) (blocksToAnalyze : Nat) : List ContractInfo :=
  match env.blockNumber with
  | none => []
  | some currentBlock =>
    ((scanContracts env blocksToAnalyze currentBlock).map (fun p => p.2)).mergeSort
      byInteractionsDesc

/-- Looking up the key just stored finds the stored record. -/
theorem mapGet_mapSet_self (m : CMap) (k : JStr) (v : ContractInfo) :
    mapGet (mapSet m k v) k = some v := by
  induction m with
  | nil => simp [mapGet, mapSet]
  | cons p m ih =>
    by_cases hpk : p.1 == k
    · rw [mapSet, if_pos (by simp [List.any_cons, hpk])]
      rw [mapGet]
      simp only [List.map_cons, if_pos hpk, List.find?_cons, beq_self_eq_true]
      rfl
    · by_cases hm : m.any (fun q => q.1 == k)
      · have ih' := ih
        rw [mapSet, if_pos hm, mapGet] at ih'
        rw [mapSet, if_pos (by simp [List.any_cons, hpk, hm])]
        rw [mapGet]
        simp only [List.map_cons, if_neg hpk, List.find?_cons]
        simp only [hpk]
        exact ih'
      · have ih' := ih
        rw [mapSet, if_neg hm, mapGet] at ih'
        rw [mapSet, if_neg (by simp [List.any_cons, hpk, hm])]
        rw [mapGet]
        simp only [List.cons_append, List.find?_cons]
        simp only [hpk]
        exact ih'

/-- A block whose fetch fails or whose transaction list is absent. -/
def blockSkipped (env : Env) (blockNumber : Nat) : Prop :=
  env.getBlock blockNumber = none ∨
  ∃ b, env.getBlock blockNumber = some b ∧ b.transactions = none

/-- A skipped block leaves the contract map unchanged. -/
theorem processBlock_skipped (env : Env) (blockNumber : Nat) (acc : CMap)
    (h : blockSkipped env blockNumber) :
    processBlock env blockNumber acc = acc := by
  rcases h with h | ⟨b, hb, hbt⟩
  · rw [processBlock, h]
  · rw [processBlock, hb]
    simp only [hbt]

/-- C4: `discoverActiveContracts` never surfaces a failure: if the chain
height fetch fails it returns `[]` (the outer `catch`), and if every block
fetch in the window fails or yields no transaction list the scan
accumulates nothing and it also returns `[]`. -/
theorem discoverActiveContracts_total_failure_empty (env : Env) (blocksToAnalyze : Nat) :
    (env.blockNumber = none → discoverActiveContracts env blocksToAnalyze = []) ∧
    (∀ currentBlock, env.blockNumber = some currentBlock →
      (∀ i < blocksToAnalyze, blockSkipped env (currentBlock - i)) →
      discoverActiveContracts env blocksToAnalyze = []) := by
  constructor
  · intro h
    rw [discoverActiveContracts, h]
  · intro currentBlock hcb hskip
    rw [discoverActiveContracts, hcb]
    simp only []
    have hscan : scanContracts env blocksToAnalyze currentBlock = [] := by
      rw [scanContracts]
      have : ∀ (l : List Nat) (acc : CMap), (∀ i ∈ l, i < blocksToAnalyze) →
          l.foldl (fun a i => processBlock env (currentBlock - i) a) acc = acc := by
        intro l
        induction l with
        | nil => intro acc _; rfl
        | cons j l ih =>
          intro acc hmem
          rw [List.foldl_cons,
            processBlock_skipped env _ acc (hskip j (hmem j (List.mem_cons_self j l)))]
          exact ih acc (fun i hi => hmem i (List.mem_cons_of_mem j hi))
      exact this (List.range blocksToAnalyze) [] (fun i hi => List.mem_range.mp hi)
    rw [hscan]
    simp

/-- Witness for C4: a dead chain client (height fetch fails) and a client
whose height succeeds but every block fetch fails both produce `[]`. -/
theorem discoverActiveContracts_total_failure_empty_witness :
    discoverActiveContracts ⟨none, fun _ => none, fun _ => none, fun _ => none⟩ 10 = [] ∧
    discoverActiveContracts ⟨some 100, fun _ => none, fun _ => none, fun _ => none⟩ 10 = [] :=
  ⟨(discoverActiveContracts_total_failure_empty _ 10).1 rfl,
   (discoverActiveContracts_total_failure_empty _ 10).2 100 rfl
     (fun _ _ => Or.inl rfl)⟩

/-- C5 (amended): a sampled transaction with no recipient whose receipt
carries a created contract address produces, under the lowercased
contract address, a record with creation block/hash, lowercased creator,
one interaction, the LOWERCASED sender as sole unique caller, the
receipt's gas, and a contract type computed by the classifier. -/
theorem deployment_record_fields (tx : Tx) (receipt : Receipt) (contracts : CMap)
    (blockTimestamp : Nat) (ca : JStr)
    (hto : tx.to = none) (hca : receipt.contractAddress = some ca) :
    mapGet (processTx contracts blockTimestamp tx receipt) (jsToLower ca) =
      some
        { address := jsToLower ca
          creator := jsToLower tx.from_
          creationHash := tx.hash
          creationBlock := receipt.blockNumber
          contractType := identifyContractType tx.data receipt.gasUsed
          firstSeen := blockTimestamp * 1000
          lastActivity := blockTimestamp * 1000
          totalInteractions := 1
          uniqueCallers := {jsToLower tx.from_}
          functionSignatures := []
          gasUsed := receipt.gasUsed
          isVerified := false } := by
  rw [processTx]
  rw [hto]
  simp only [hca, Option.isSome_some, if_true]
  rw [analyzeContractDeployment, hca]
  exact mapGet_mapSet_self contracts (jsToLower ca) _

/-- Witness for C5's theorem: the spec's `to = null`, `contractAddress =
0xdead...beef` scenario, with an ERC20-transfer call-data, evaluated
concretely. -/
theorem deployment_record_fields_witness :
    mapGet
      (processTx [] 1700000000
        ⟨"0xhash1".data, "0xCAFE".data, none, 0, "0xa9059cbb".data⟩
        ⟨1, 2000000, some "0xDEAD00beef".data, 42⟩)
      (jsToLower "0xDEAD00beef".data) =
      some
        { address := "0xdead00beef".data
          creator := "0xcafe".data
          creationHash := "0xhash1".data
          creationBlock := 42
          contractType := "ERC20 Token"
          firstSeen := 1700000000000
          lastActivity := 1700000000000
          totalInteractions := 1
          uniqueCallers := {"0xcafe".data}
          functionSignatures := []
          gasUsed := 2000000
          isVerified := false } := by
  rw [deployment_record_fields _ _ _ _ _ rfl rfl]
  decide

/-- C5: the sole unique caller recorded for a deployment is the
LOWERCASED sender, not the sender string as sent by the RPC: a deployment
from `0xAB` records `uniqueCallers = {0xab} ≠ {0xAB}`. -/
theorem deployment_uniqueCallers_not_raw_sender :
    (mapGet
        (processTx [] 5 ⟨"0xh1".data, "0xAB".data, none, 0, "0x".data⟩
          ⟨1, 21000, some "0xdead".data, 7⟩)
        "0xdead".data).map ContractInfo.uniqueCallers =
      some {"0xab".data} ∧
    ({"0xab".data} : Finset JStr) ≠ {"0xAB".data} :=
  ⟨by decide, by decide⟩

/-- The C6 invariant: a record never counts more distinct callers than
interactions. -/
def callersLeInteractions (ci : ContractInfo) : Prop :=
  ci.uniqueCallers.card ≤ ci.totalInteractions

/-- `mapSet` preserves any per-record predicate. -/
theorem mapSet_preserves {P : ContractInfo → Prop} (m : CMap) (k : JStr)
    (v : ContractInfo) (hm : ∀ p ∈ m, P p.2) (hv : P v) :
    ∀ p ∈ mapSet m k v, P p.2 := by
  intro p hp
  rw [mapSet] at hp
  split at hp
  · rw [List.mem_map] at hp
    obtain ⟨q, hq, rfl⟩ := hp
    by_cases hqk : q.1 == k
    · rw [if_pos hqk]
      exact hv
    · rw [if_neg hqk]
      exact hm q hq
  · rw [List.mem_append] at hp
    rcases hp with hp | hp
    · exact hm p hp
    · rw [List.mem_singleton] at hp
      subst hp
      exact hv

/-- A record served by `mapGet` is a value of the map. -/
theorem mapGet_mem (m : CMap) (k : JStr) (ci : ContractInfo)
    (h : mapGet m k = some ci) : ∃ k', (k', ci) ∈ m := by
  rw [mapGet, Option.map_eq_some'] at h
  obtain ⟨q, hfind, hq2⟩ := h
  refine ⟨q.1, ?_⟩
  have hmem := List.mem_of_find?_eq_some hfind
  rw [← hq2]
  simpa using hmem

/-- One scan step preserves the caller-count invariant (this is the
"at every point during a scan" form of C6: from any state whose records
satisfy it, the state after folding in one more sampled transaction still
does). -/
theorem processTx_preserves_callersLe (contracts : CMap)
    (h : ∀ p ∈ contracts, callersLeInteractions p.2)
    (ts : Nat) (tx : Tx) (rc : Receipt) :
    ∀ p ∈ processTx contracts ts tx rc, callersLeInteractions p.2 := by
  rw [processTx]
  cases hto : tx.to with
  | some a =>
    rw [analyzeContractInteraction, hto]
    cases hget : mapGet contracts (jsToLower a) with
    | some ci =>
      simp only [hget]
      refine mapSet_preserves contracts _ _ h ?_
      obtain ⟨k', hk'⟩ := mapGet_mem contracts (jsToLower a) ci hget
      have hci : ci.uniqueCallers.card ≤ ci.totalInteractions := h (k', ci) hk'
      rw [callersLeInteractions]
      calc (insert (jsToLower tx.from_) ci.uniqueCallers).card
          ≤ ci.uniqueCallers.card + 1 := Finset.card_insert_le _ _
        _ ≤ ci.totalInteractions + 1 := by omega
    | none =>
      simp only [hget]
      refine mapSet_preserves contracts _ _ h ?_
      rw [callersLeInteractions]
      calc (insert (jsToLower tx.from_) (∅ : Finset JStr)).card
          ≤ (∅ : Finset JStr).card + 1 := Finset.card_insert_le _ _
        _ ≤ 0 + 1 := by simp
  | none =>
    cases hca : rc.contractAddress with
    | some ca =>
      simp only [hca, Option.isSome_some, if_true]
      rw [analyzeContractDeployment, hca]
      refine mapSet_preserves contracts _ _ h ?_
      rw [callersLeInteractions]
      simp
    | none =>
      simp only [hca, Option.isSome_none, Bool.false_eq_true, if_false]
      exact h

/-- `processHash` preserves the caller-count invariant. -/
theorem processHash_preserves_callersLe (env : Env) (ts : Nat) (acc : CMap)
    (h : ∀ p ∈ acc, callersLeInteractions p.2) (txHash : JStr) :
    ∀ p ∈ processHash env ts acc txHash, callersLeInteractions p.2 := by
  rw [processHash]
  cases env.getTransaction txHash with
  | none => exact h
  | some tx =>
    cases env.getTransactionReceipt txHash with
    | none => exact h
    | some rc => exact processTx_preserves_callersLe acc h ts tx rc

/-- Folding any hash list preserves the caller-count invariant. -/
theorem foldl_processHash_preserves_callersLe (env : Env) (ts : Nat) :
    ∀ (hashes : List JStr) (acc : CMap), (∀ p ∈ acc, callersLeInteractions p.2) →
      ∀ p ∈ hashes.foldl (processHash env ts) acc, callersLeInteractions p.2 := by
  intro hashes
  induction hashes with
  | nil => intro acc h; exact h
  | cons hh hs ih =>
    intro acc h
    rw [List.foldl_cons]
    exact ih _ (processHash_preserves_callersLe env ts acc h hh)

/-- `processBlock` preserves the caller-count invariant. -/
theorem processBlock_preserves_callersLe (env : Env) (bn : Nat) (acc : CMap)
    (h : ∀ p ∈ acc, callersLeInteractions p.2) :
    ∀ p ∈ processBlock env bn acc, callersLeInteractions p.2 := by
  intro p hp
  rw [processBlock] at hp
  rcases hgb : env.getBlock bn with _ | b
  · rw [hgb] at hp
    exact h p hp
  · rw [hgb] at hp
    rcases hbt : b.transactions with _ | txs
    · simp only [hbt] at hp
      exact h p hp
    · simp only [hbt] at hp
      exact foldl_processHash_preserves_callersLe env b.timestamp (sampledHashes txs)
        acc h p hp

/-- Every record of the accumulated contract map satisfies the invariant. -/
theorem scanContracts_callersLe (env : Env) (blocksToAnalyze currentBlock : Nat) :
    ∀ p ∈ scanContracts env blocksToAnalyze currentBlock, callersLeInteractions p.2 := by
  rw [scanContracts]
  have : ∀ (l : List Nat) (acc : CMap), (∀ p ∈ acc, callersLeInteractions p.2) →
      ∀ p ∈ l.foldl (fun a i => processBlock env (currentBlock - i) a) acc,
        callersLeInteractions p.2 := by
    intro l
    induction l with
    | nil => intro acc h; exact h
    | cons j l ih =>
      intro acc h
      rw [List.foldl_cons]
      exact ih _ (processBlock_preserves_callersLe env (currentBlock - j) acc h)
  exact this (List.range blocksToAnalyze) [] (by simp)

/-- C6: one scan step keeps `|uniqueCallers| ≤ totalInteractions` from any
state that satisfies it (so the invariant holds at every point during a
scan), every record of the returned list satisfies it, and the sum of
caller counts over the result is at most the sum of interaction counts. -/
theorem uniqueCallers_card_le_totalInteractions :
    (∀ (contracts : CMap), (∀ p ∈ contracts, callersLeInteractions p.2) →
      ∀ (ts : Nat) (tx : Tx) (rc : Receipt),
        ∀ p ∈ processTx contracts ts tx rc, callersLeInteractions p.2) ∧
    (∀ (env : Env) (blocksToAnalyze : Nat),
      ∀ ci ∈ discoverActiveContracts env blocksToAnalyze, callersLeInteractions ci) ∧
    (∀ (env : Env) (blocksToAnalyze : Nat),
      ((discoverActiveContracts env blocksToAnalyze).map
          (fun ci => ci.uniqueCallers.card)).sum ≤
        ((discoverActiveContracts env blocksToAnalyze).map
          (fun ci => ci.totalInteractions)).sum) := by
  have hmem : ∀ (env : Env) (blocksToAnalyze : Nat),
      ∀ ci ∈ discoverActiveContracts env blocksToAnalyze, callersLeInteractions ci := by
    intro env blocksToAnalyze ci hci
    rw [discoverActiveContracts] at hci
    cases hcb : env.blockNumber with
    | none =>
      rw [hcb] at hci
      simp at hci
    | some currentBlock =>
      rw [hcb] at hci
      simp only [List.mem_mergeSort, List.mem_map] at hci
      obtain ⟨p, hp, rfl⟩ := hci
      exact scanContracts_callersLe env blocksToAnalyze currentBlock p hp
  refine ⟨fun contracts h ts tx rc => processTx_preserves_callersLe contracts h ts tx rc,
    hmem, ?_⟩
  intro env blocksToAnalyze
  exact List.sum_le_sum (fun ci hci => hmem env blocksToAnalyze ci hci)

/-- Witness for C6: a single interaction folded into the empty map yields
the one-record state whose record has one caller and one interaction, and
the step theorem applies to it. -/
theorem uniqueCallers_card_le_totalInteractions_witness :
    callersLeInteractions
      { address := "0xc".data
        creator := "unknown".data
        creationHash := "unknown".data
        creationBlock := 0
        contractType := "Unknown"
        firstSeen := 5000
        lastActivity := 5000
        totalInteractions := 1
        uniqueCallers := {"0xa".data}
        functionSignatures := []
        gasUsed := 100
        isVerified := false } :=
  uniqueCallers_card_le_totalInteractions.1 [] (by simp) 5
    ⟨"0xh".data, "0xA".data, some "0xC".data, 0, "0x".data⟩ ⟨1, 100, none, 3⟩
    ("0xc".data, _) (by decide)

/-- The descending-interactions comparator is transitive. -/
theorem byInteractionsDesc_trans (a b c : ContractInfo) :
    byInteractionsDesc a b → byInteractionsDesc b c → byInteractionsDesc a c := by
  simp only [byInteractionsDesc, decide_eq_true_eq]
  omega

/-- The descending-interactions comparator is total. -/
theorem byInteractionsDesc_total (a b : ContractInfo) :
    byInteractionsDesc a b || byInteractionsDesc b a := by
  simp only [byInteractionsDesc]
  rcases Nat.le_total a.totalInteractions b.totalInteractions with h | h <;> simp [h]

/-- C7: the list returned by `discoverActiveContracts` is pairwise
descending in `totalInteractions`, and for every interaction count `k`
the sub-list of records with that count equals (in order) the sub-list of
the pre-sort contract-map values, which are in discovery (insertion)
order — i.e. the sort is stable. -/
theorem discoverActiveContracts_sorted_stable (env : Env) (blocksToAnalyze : Nat) :
    (discoverActiveContracts env blocksToAnalyze).Pairwise
      (fun a b => b.totalInteractions ≤ a.totalInteractions) ∧
    (∀ currentBlock, env.blockNumber = some currentBlock → ∀ k : Nat,
      (discoverActiveContracts env blocksToAnalyze).filter
          (fun ci => ci.totalInteractions == k) =
        ((scanContracts env blocksToAnalyze currentBlock).map (fun p => p.2)).filter
          (fun ci => ci.totalInteractions == k)) := by
  constructor
  · rw [discoverActiveContracts]
    cases hcb : env.blockNumber with
    | none => exact List.Pairwise.nil
    | some currentBlock =>
      have hs := List.sorted_mergeSort byInteractionsDesc_trans
        (fun a b => byInteractionsDesc_total a b)
        ((scanContracts env blocksToAnalyze currentBlock).map (fun p => p.2))
      exact hs.imp (fun hab => by
        simpa [byInteractionsDesc, decide_eq_true_eq] using hab)
  · intro currentBlock hcb k
    rw [discoverActiveContracts, hcb]
    set l := (scanContracts env blocksToAnalyze currentBlock).map (fun p => p.2) with hl
    set p := fun ci : ContractInfo => ci.totalInteractions == k with hp
    have hpairs : (l.filter p).Pairwise (fun a b => byInteractionsDesc a b) := by
      refine List.pairwise_of_forall_mem_list ?_
      intro a ha b hb
      have ha' := List.of_mem_filter ha
      have hb' := List.of_mem_filter hb
      rw [hp] at ha' hb'
      simp only [beq_iff_eq] at ha' hb'
      simp [byInteractionsDesc, ha', hb']
    have h1 : List.Sublist (l.filter p) (l.mergeSort byInteractionsDesc) :=
      List.sublist_mergeSort byInteractionsDesc_trans
        (fun a b => byInteractionsDesc_total a b) hpairs (List.filter_sublist l)
    have h2 : List.Sublist (l.filter p) ((l.mergeSort byInteractionsDesc).filter p) := by
      have := h1.filter p
      rwa [List.filter_eq_self.mpr (fun a ha => List.of_mem_filter (p := p) ha)] at this
    have h3 : List.Perm ((l.mergeSort byInteractionsDesc).filter p) (l.filter p) :=
      (List.mergeSort_perm l byInteractionsDesc).filter p
    exact (h2.eq_of_length h3.length_eq.symm).symm

/-- Witness for C7: the stability equation instantiated at a concrete
environment and interaction count. -/
theorem discoverActiveContracts_sorted_stable_witness :
    (discoverActiveContracts ⟨some 9, fun _ => none, fun _ => none, fun _ => none⟩
        3).filter (fun ci => ci.totalInteractions == 1) =
      ((scanContracts ⟨some 9, fun _ => none, fun _ => none, fun _ => none⟩ 3 9).map
        (fun p => p.2)).filter (fun ci => ci.totalInteractions == 1) :=
  (discoverActiveContracts_sorted_stable _ 3).2 9 rfl 1

/-- `Char.ofNat` round-trips on code points below the surrogate range. -/
theorem char_toNat_ofNat_small (m : Nat) (h : m < 55296) : (Char.ofNat m).toNat = m := by
  have hv : m.isValidChar := Or.inl h
  rw [Char.ofNat, dif_pos hv]
  simp [Char.ofNatAux, Char.toNat, UInt32.ofNat', UInt32.toNat, BitVec.toNat_ofNatLt]

/-- ASCII lowercasing is idempotent on characters. -/
theorem char_toLower_idem (c : Char) : c.toLower.toLower = c.toLower := by
  unfold Char.toLower
  by_cases h : c.toNat ≥ 65 ∧ c.toNat ≤ 90
  · rw [if_pos h]
    have h2 : (Char.ofNat (c.toNat + 32)).toNat = c.toNat + 32 :=
      char_toNat_ofNat_small _ (by omega)
    rw [if_neg (by rw [h2]; omega)]
  · rw [if_neg h, if_neg h]

/-- `toLowerCase` is idempotent on JS strings. -/
theorem jsToLower_idem (s : JStr) : jsToLower (jsToLower s) = jsToLower s := by
  rw [jsToLower, jsToLower, List.map_map]
  exact List.map_congr_left (fun c _ => char_toLower_idem c)

/-- `mapSet` preserves any predicate on keys that the new key satisfies. -/
theorem mapSet_preserves_keys {Q : JStr → Prop} (m : CMap) (k : JStr)
    (v : ContractInfo) (hm : ∀ p ∈ m, Q p.1) (hk : Q k) :
    ∀ p ∈ mapSet m k v, Q p.1 := by
  intro p hp
  rw [mapSet] at hp
  split at hp
  · rw [List.mem_map] at hp
    obtain ⟨q, hq, rfl⟩ := hp
    by_cases hqk : q.1 == k
    · rw [if_pos hqk]
      exact hk
    · rw [if_neg hqk]
      exact hm q hq
  · rw [List.mem_append] at hp
    rcases hp with hp | hp
    · exact hm p hp
    · rw [List.mem_singleton] at hp
      subst hp
      exact hk

/-- Every key a scan step stores is lowercase-normalized. -/
theorem processTx_keys_lowercase (m : CMap)
    (h : ∀ p ∈ m, jsToLower p.1 = p.1) (ts : Nat) (tx : Tx) (rc : Receipt) :
    ∀ p ∈ processTx m ts tx rc, jsToLower p.1 = p.1 := by
  rw [processTx]
  cases hto : tx.to with
  | some a =>
    rw [analyzeContractInteraction, hto]
    cases hget : mapGet m (jsToLower a) with
    | some ci =>
      simp only [hget]
      exact mapSet_preserves_keys (Q := fun x => jsToLower x = x) m _ _ h
        (jsToLower_idem a)
    | none =>
      simp only [hget]
      exact mapSet_preserves_keys (Q := fun x => jsToLower x = x) m _ _ h
        (jsToLower_idem a)
  | none =>
    cases hca : rc.contractAddress with
    | some ca =>
      simp only [hca, Option.isSome_some, if_true]
      rw [analyzeContractDeployment, hca]
      exact mapSet_preserves_keys (Q := fun x => jsToLower x = x) m _ _ h
        (jsToLower_idem ca)
    | none =>
      simp only [hca, Option.isSome_none, Bool.false_eq_true, if_false]
      exact h

/-- Key normalization lifted through a whole scan. -/
theorem scanContracts_keys_lowercase (env : Env) (blocksToAnalyze currentBlock : Nat) :
    ∀ p ∈ scanContracts env blocksToAnalyze currentBlock, jsToLower p.1 = p.1 := by
  rw [scanContracts]
  have hhash : ∀ (ts : Nat) (hsh : JStr) (acc : CMap), (∀ p ∈ acc, jsToLower p.1 = p.1) →
      ∀ p ∈ processHash env ts acc hsh, jsToLower p.1 = p.1 := by
    intro ts hsh acc h
    rw [processHash]
    cases env.getTransaction hsh with
    | none => exact h
    | some tx =>
      cases env.getTransactionReceipt hsh with
      | none => exact h
      | some rc => exact processTx_keys_lowercase acc h ts tx rc
  have hfold : ∀ (ts : Nat) (hashes : List JStr) (acc : CMap),
      (∀ p ∈ acc, jsToLower p.1 = p.1) →
      ∀ p ∈ hashes.foldl (processHash env ts) acc, jsToLower p.1 = p.1 := by
    intro ts hashes
    induction hashes with
    | nil => intro acc h; exact h
    | cons hh hs ih =>
      intro acc h
      rw [List.foldl_cons]
      exact ih _ (hhash ts hh acc h)
  have hblock : ∀ (bn : Nat) (acc : CMap), (∀ p ∈ acc, jsToLower p.1 = p.1) →
      ∀ p ∈ processBlock env bn acc, jsToLower p.1 = p.1 := by
    intro bn acc h p hp
    rw [processBlock] at hp
    rcases hgb : env.getBlock bn with _ | b
    · rw [hgb] at hp
      exact h p hp
    · rw [hgb] at hp
      rcases hbt : b.transactions with _ | txs
      · simp only [hbt] at hp
        exact h p hp
      · simp only [hbt] at hp
        exact hfold b.timestamp (sampledHashes txs) acc h p hp
  have : ∀ (l : List Nat) (acc : CMap), (∀ p ∈ acc, jsToLower p.1 = p.1) →
      ∀ p ∈ l.foldl (fun a i => processBlock env (currentBlock - i) a) acc,
        jsToLower p.1 = p.1 := by
    intro l
    induction l with
    | nil => intro acc h; exact h
    | cons j l ih =>
      intro acc h
      rw [List.foldl_cons]
      exact ih _ (hblock (currentBlock - j) acc h)
  exact this (List.range blocksToAnalyze) [] (by simp)

/-- A found key is present, in `List.any` form. -/
theorem mapGet_any (m : CMap) (k : JStr) (ci : ContractInfo)
    (h : mapGet m k = some ci) : m.any (fun p => p.1 == k) = true := by
  rw [mapGet, Option.map_eq_some'] at h
  obtain ⟨q, hfind, _⟩ := h
  have hq := List.find?_some hfind
  exact List.any_eq_true.mpr ⟨q, List.mem_of_find?_eq_some hfind, hq⟩

/-- Storing at a present key does not grow the map. -/
theorem mapSet_length_of_present (m : CMap) (k : JStr) (v : ContractInfo)
    (h : m.any (fun p => p.1 == k) = true) : (mapSet m k v).length = m.length := by
  rw [mapSet, if_pos h, List.length_map]

/-- Unfolding of an interaction whose (lowercased) recipient is already in
the map: the existing record is updated in place. -/
theorem analyzeContractInteraction_found (tx : Tx) (rc : Receipt) (m : CMap)
    (ts : Nat) (a : JStr) (ci : ContractInfo) (h : tx.to = some a)
    (hget : mapGet m (jsToLower a) = some ci) :
    analyzeContractInteraction tx rc m ts =
      mapSet m (jsToLower a)
        { ci with
          totalInteractions := ci.totalInteractions + 1
          uniqueCallers := insert (jsToLower tx.from_) ci.uniqueCallers
          gasUsed := ci.gasUsed + rc.gasUsed
          lastActivity := ts * 1000
          functionSignatures :=
            if tx.data.length ≥ 10 then sigBump ci.functionSignatures (tx.data.take 10)
            else ci.functionSignatures } := by
  rw [analyzeContractInteraction, h]
  simp only [hget]

/-- An interaction always leaves a record under its lowercased recipient. -/
theorem analyzeContractInteraction_isSome (tx : Tx) (rc : Receipt) (m : CMap)
    (ts : Nat) (a : JStr) (h : tx.to = some a) :
    ∃ ci, mapGet (analyzeContractInteraction tx rc m ts) (jsToLower a) = some ci := by
  rw [analyzeContractInteraction, h]
  cases hget : mapGet m (jsToLower a) with
  | some ci =>
    simp only [hget]
    exact ⟨_, mapGet_mapSet_self m (jsToLower a) _⟩
  | none =>
    simp only [hget]
    exact ⟨_, mapGet_mapSet_self m (jsToLower a) _⟩

/-- C9: every address key the scan stores is lowercase-normalized
(`toLowerCase` is idempotent, so stored keys are fixed points), and
lookup is case-insensitive: a second sampled transaction whose recipient
differs from an earlier one only in letter case folds into the same
ContractRecord — the map does not grow, and the record under the shared
lowercase key absorbs the second transaction's update. -/
theorem scan_keys_lowercase_and_fold_case_insensitive :
    (∀ (env : Env) (blocksToAnalyze currentBlock : Nat),
      ∀ p ∈ scanContracts env blocksToAnalyze currentBlock, jsToLower p.1 = p.1) ∧
    (∀ (m : CMap) (ts1 ts2 : Nat) (t1 t2 : Tx) (r1 r2 : Receipt) (a1 a2 : JStr),
      t1.to = some a1 → t2.to = some a2 → jsToLower a1 = jsToLower a2 →
      (analyzeContractInteraction t2 r2 (analyzeContractInteraction t1 r1 m ts1)
          ts2).length = (analyzeContractInteraction t1 r1 m ts1).length ∧
      mapGet (analyzeContractInteraction t2 r2 (analyzeContractInteraction t1 r1 m ts1)
          ts2) (jsToLower a1) =
        (mapGet (analyzeContractInteraction t1 r1 m ts1) (jsToLower a1)).map
          (fun ci =>
            { ci with
              totalInteractions := ci.totalInteractions + 1
              uniqueCallers := insert (jsToLower t2.from_) ci.uniqueCallers
              gasUsed := ci.gasUsed + r2.gasUsed
              lastActivity := ts2 * 1000
              functionSignatures :=
                if t2.data.length ≥ 10 then
                  sigBump ci.functionSignatures (t2.data.take 10)
                else ci.functionSignatures })) := by
  refine ⟨scanContracts_keys_lowercase, ?_⟩
  intro m ts1 ts2 t1 t2 r1 r2 a1 a2 h1 h2 hcase
  obtain ⟨ci1, hci1⟩ := analyzeContractInteraction_isSome t1 r1 m ts1 a1 h1
  have hci1' : mapGet (analyzeContractInteraction t1 r1 m ts1) (jsToLower a2) =
      some ci1 := by rw [← hcase]; exact hci1
  have hstep := analyzeContractInteraction_found t2 r2
    (analyzeContractInteraction t1 r1 m ts1) ts2 a2 ci1 h2 hci1'
  constructor
  · rw [hstep]
    exact mapSet_length_of_present _ _ _
      (mapGet_any _ _ ci1 hci1')
  · rw [hstep, hcase, mapGet_mapSet_self, hci1']
    rfl

/-- Witness for C9: recipients `0xAbC` and `0xaBc` (same address, mixed
case) from two different senders fold into one record with two
interactions. -/
theorem scan_keys_fold_case_insensitive_witness :
    (analyzeContractInteraction ⟨"0xh2".data, "0xB".data, some "0xaBc".data, 0,
          "0x".data⟩ ⟨1, 7, none, 2⟩
        (analyzeContractInteraction ⟨"0xh1".data, "0xA".data, some "0xAbC".data, 0,
            "0x".data⟩ ⟨1, 5, none, 1⟩ [] 10) 20).length =
      (analyzeContractInteraction ⟨"0xh1".data, "0xA".data, some "0xAbC".data, 0,
          "0x".data⟩ ⟨1, 5, none, 1⟩ [] 10).length ∧
    (mapGet
        (analyzeContractInteraction ⟨"0xh2".data, "0xB".data, some "0xaBc".data, 0,
            "0x".data⟩ ⟨1, 7, none, 2⟩
          (analyzeContractInteraction ⟨"0xh1".data, "0xA".data, some "0xAbC".data, 0,
              "0x".data⟩ ⟨1, 5, none, 1⟩ [] 10) 20)
        (jsToLower "0xAbC".data)).map (fun ci => ci.totalInteractions) =
      some 2 := by
  have h := scan_keys_lowercase_and_fold_case_insensitive.2 [] 10 20
    ⟨"0xh1".data, "0xA".data, some "0xAbC".data, 0, "0x".data⟩
    ⟨"0xh2".data, "0xB".data, some "0xaBc".data, 0, "0x".data⟩
    ⟨1, 5, none, 1⟩ ⟨1, 7, none, 2⟩ "0xAbC".data "0xaBc".data rfl rfl (by decide)
  refine ⟨h.1, ?_⟩
  rw [h.2]
  decide

/-- `FunctionCall` (contract-analyzer.ts lines 21-27), as produced by
`ContractAnalyzer.getPopularFunctions`. -/
structure FunctionCall where
  signature : JStr
  name : String
  callCount : Nat
  gasUsage : Nat
  popularity : Nat

/-- One element of the `functions` array built by
`MegaETHAnalytics.getContractFunctions` (combined-file lines 728-735).
`avgGasPerCall` is a JS number produced by `Math.round`, modelled as `ℤ`. -/
structure FunctionEntry where
  signature : JStr
  name : String
  callCount : Nat
  gasUsage : Nat
  avgGasPerCall : ℤ
  popularity : Nat

/-- `MegaETHAnalytics.getContractFunctions` (combined-file lines 717-744),
its per-entry mapping over the list that `getPopularFunctions` returns:
`avgGasPerCall = callCount > 0 ? Math.round(gasUsage / callCount) : 0`. -/
def getContractFunctions (popularFunctions : List FunctionCall) :
    Nat × List FunctionEntry :=
  (popularFunctions.length,
   popularFunctions.map (fun f =>
     { signature := f.signature
       name := f.name
       callCount := f.callCount
       gasUsage := f.gasUsage
       avgGasPerCall :=
         if f.callCount > 0 then mathRound ((f.gasUsage : ℚ) / (f.callCount : ℚ))
         else 0
       popularity := f.popularity }))

/-- `Math.round` of an exact integer plus nothing rounds to itself. -/
theorem mathRound_intCast (n : ℤ) : mathRound (n : ℚ) = n := by
  rw [mathRound, Int.floor_int_add]
  norm_num

/-- `Math.round` is within a half of its argument. -/
theorem mathRound_close (q : ℚ) : |((mathRound q : ℤ) : ℚ) - q| ≤ 1 / 2 := by
  rw [mathRound]
  have h1 : ((⌊q + 1 / 2⌋ : ℤ) : ℚ) ≤ q + 1 / 2 := Int.floor_le _
  have h2 : q + 1 / 2 < ((⌊q + 1 / 2⌋ : ℤ) : ℚ) + 1 := Int.lt_floor_add_one _
  rw [abs_le]
  constructor <;> linarith

/-- C8 (amended): for every entry returned by `getContractFunctions`,
`avgGasPerCall` is `0` when `callCount = 0`, and otherwise it is
`Math.round(gasUsage / callCount)` — the exact quotient whenever
`callCount` divides `gasUsage`, and within `1/2` of it in general. -/
theorem avgGasPerCall_characterization (funcs : List FunctionCall) :
    ∀ e ∈ (getContractFunctions funcs).2,
      (e.callCount = 0 → e.avgGasPerCall = 0) ∧
      (0 < e.callCount →
        e.avgGasPerCall = mathRound ((e.gasUsage : ℚ) / (e.callCount : ℚ)) ∧
        (e.callCount ∣ e.gasUsage →
          ((e.avgGasPerCall : ℤ) : ℚ) = (e.gasUsage : ℚ) / (e.callCount : ℚ)) ∧
        |((e.avgGasPerCall : ℤ) : ℚ) - (e.gasUsage : ℚ) / (e.callCount : ℚ)| ≤ 1 / 2) := by
  intro e he
  rw [getContractFunctions] at he
  simp only [List.mem_map] at he
  obtain ⟨f, hf, rfl⟩ := he
  dsimp only
  refine ⟨fun h0 => by simp [h0], fun hpos => ?_⟩
  have hne : (f.callCount : ℚ) ≠ 0 := by positivity
  have havg : (if f.callCount > 0 then mathRound ((f.gasUsage : ℚ) / (f.callCount : ℚ))
      else 0) = mathRound ((f.gasUsage : ℚ) / (f.callCount : ℚ)) := if_pos hpos
  refine ⟨havg, fun hdvd => ?_, ?_⟩
  · obtain ⟨t, ht⟩ := hdvd
    have hq : ((f.gasUsage : ℕ) : ℚ) / (f.callCount : ℚ) = ((t : ℤ) : ℚ) := by
      rw [ht]
      push_cast
      field_simp
    simp only [havg, hq, mathRound_intCast]
    rw [if_pos hpos]
  · simp only [havg]
    exact mathRound_close _

/-- Witness for C8's theorem: a single `transfer` stat with 2 calls and
5 gas, whose rounded average is 3. -/
theorem avgGasPerCall_characterization_witness :
    (⟨"0xa9059cbb".data, "t", 2, 5,
        if 2 > 0 then mathRound ((5 : ℚ) / (2 : ℚ)) else 0, 2⟩ : FunctionEntry) ∈
      (getContractFunctions [⟨"0xa9059cbb".data, "t", 2, 5, 2⟩]).2 ∧
    (0 : ℕ) < 2 ∧
    (⟨"0xa9059cbb".data, "t", 2, 5,
        if 2 > 0 then mathRound ((5 : ℚ) / (2 : ℚ)) else 0, 2⟩ :
          FunctionEntry).avgGasPerCall =
      mathRound ((5 : ℚ) / (2 : ℚ)) ∧
    mathRound ((5 : ℚ) / (2 : ℚ)) = 3 := by
  have hmem : (⟨"0xa9059cbb".data, "t", 2, 5,
      if 2 > 0 then mathRound ((5 : ℚ) / (2 : ℚ)) else 0, 2⟩ : FunctionEntry) ∈
      (getContractFunctions [⟨"0xa9059cbb".data, "t", 2, 5, 2⟩]).2 := by
    simp [getContractFunctions]
  have h := (avgGasPerCall_characterization
      [⟨"0xa9059cbb".data, "t", 2, 5, 2⟩] _ hmem).2 (by norm_num)
  refine ⟨hmem, by norm_num, ?_, by norm_num [mathRound]⟩
  exact h.1

/-- C8: `avgGasPerCall` is the ROUNDED quotient, not the exact one: with
`gasUsage = 5` and `callCount = 2` the code returns `Math.round(2.5) = 3`,
which differs from the exact quotient `5/2` and from the floored integer
quotient `2`. -/
theorem avgGasPerCall_not_exact_quotient :
    ((getContractFunctions [⟨"0xa9059cbb".data, "t", 2, 5, 2⟩]).2.map
        (fun e => e.avgGasPerCall) = [3]) ∧
    ((3 : ℚ) ≠ (5 : ℚ) / 2) ∧ ((3 : ℕ) ≠ 5 / 2) := by
  refine ⟨?_, by norm_num, by norm_num⟩
  norm_num [getContractFunctions, mathRound]

/-- `${s.substring(0, 8)}...${s.substring(s.length - 4)}` (address display). -/
def displayAddr8 (s : JStr) : JStr := s.take 8 ++ "...".data ++ s.drop (s.length - 4)

/-- `${s.substring(0, 10)}...${s.substring(s.length - 4)}` (hash display). -/
def displayHash10 (s : JStr) : JStr := s.take 10 ++ "...".data ++ s.drop (s.length - 4)

/-- The whale `to` field: clipped recipient, or `Contract Creation`. -/
def displayTo : Option JStr → JStr
  | some t => displayAddr8 t
  | none => "Contract Creation".data

/-- One entry of `detectWhaleActivity`'s result (combined-file lines
605-613 and 639-648).  `type` is the JS field `type`; `note` is present
only on the fabricated example entry. -/
structure WhaleEntry where
  hash : JStr
  from_ : JStr
  «to» : JStr
  value : ℚ
  timestamp : Nat
  type : String
  blockNumber : Nat
  note : Option String

/-- The whale comparator `(a, b) => b.value - a.value`. -/
def byValueDesc (a b : WhaleEntry) : Bool := decide (b.value ≤ a.value)

/-- The collection loop of `MegaETHAnalytics.detectWhaleActivity`
(combined-file lines 575-627): 3 blocks, first 5 hashes each; skip failed
fetches, skip zero-value transactions (`!tx.value`), keep those whose
ETH value (`value / 10^18`) reaches the threshold, with display
formatting, a value rounded to 3 decimals, and the value-based
`categorizeTransaction` label (the ethers object has no `input` field). -/
def whaleScanTxs (env : Env) (threshold : ℚ) (currentBlock : Nat) : List WhaleEntry :=
  (List.range 3).foldl
    (fun ws i =>
      match env.getBlock (currentBlock - i) with
      | none => ws
      | some b =>
        match b.transactions with
        | none => ws
        | some txs =>
          (txs.take 5).foldl
            (fun ws2 h =>
              match env.getTransaction h with
              | none => ws2
              | some tx =>
                if tx.value ≠ 0 then
                  if (tx.value : ℚ) / 1000000000000000000 ≥ threshold then
                    ws2 ++
                      [{ hash := displayHash10 tx.hash
                         from_ := displayAddr8 tx.from_
                         «to» := displayTo tx.to
                         value := (mathRound ((tx.value : ℚ) / 1000000000000000000
                           * 1000) : ℚ) / 1000
                         timestamp := b.timestamp * 1000
                         type := categorizeTransaction ⟨tx.to, tx.value, none⟩
                         blockNumber := currentBlock - i
                         note := none }]
                  else ws2
                else ws2)
            ws)
    []

/-- The fabricated example entry returned when no whale was found and the
threshold is at most 1 ETH (combined-file lines 639-648).  `new Date()`
is the wall clock, passed in as `now`. -/
def exampleWhale (now : Nat) (threshold : ℚ) (currentBlock : Nat) : WhaleEntry :=
  { hash := "0xexample...1234".data
    from_ := "0xtest...5678".data
    «to» := "0xwallet...9abc".data
    value := threshold + 0.5
    timestamp := now
    type := "Transfer"
    blockNumber := currentBlock
    note := some "Example - MegaETH testnet has mostly 0-value contract interactions" }

/-- `MegaETHAnalytics.detectWhaleActivity` (combined-file lines 571-657):
on a failed height fetch the outer `catch` returns `[]`; otherwise collect
and sort the whale entries by descending value, and if none were found
with a threshold of at most 1, return the one fabricated example entry. -/
def detectWhaleActivity (env : Env) (now : Nat) (threshold : ℚ) : List WhaleEntry :=
  match env.blockNumber with
  | none => []
  | some currentBlock =>
    let whales := (whaleScanTxs env threshold currentBlock).mergeSort byValueDesc
    if whales.length = 0 ∧ threshold ≤ 1 then [exampleWhale now threshold currentBlock]
    else whales

/-- C10: a completed scan that finds no qualifying transaction returns
the one-element fabricated example (with `value = threshold + 0.5`, the
placeholder hash/addresses and the `note` field) exactly when the
threshold is at most 1; with a threshold above 1 the empty list is
returned instead. -/
theorem detectWhaleActivity_fallback (env : Env) (now : Nat) (threshold : ℚ)
    (currentBlock : Nat) (hcb : env.blockNumber = some currentBlock)
    (hempty : whaleScanTxs env threshold currentBlock = []) :
    (threshold ≤ 1 →
      detectWhaleActivity env now threshold =
        [exampleWhale now threshold currentBlock] ∧
      (exampleWhale now threshold currentBlock).value = threshold + 0.5 ∧
      (exampleWhale now threshold currentBlock).note ≠ none) ∧
    (1 < threshold → detectWhaleActivity env now threshold = []) := by
  rw [detectWhaleActivity, hcb]
  simp only [hempty, List.mergeSort_nil, List.length_nil]
  constructor
  · intro hle
    rw [if_pos ⟨trivial, hle⟩]
    exact ⟨rfl, rfl, by simp [exampleWhale]⟩
  · intro hgt
    rw [if_neg (by simp; linarith)]

/-- Witness for C10: a chain with three empty blocks, threshold 1 ETH
yields the example entry, threshold 2 ETH yields `[]`. -/
theorem detectWhaleActivity_fallback_witness :
    detectWhaleActivity ⟨some 50, fun _ => none, fun _ => none, fun _ => none⟩ 777 1 =
      [exampleWhale 777 1 50] ∧
    detectWhaleActivity ⟨some 50, fun _ => none, fun _ => none, fun _ => none⟩ 777 2 =
      [] :=
  ⟨((detectWhaleActivity_fallback
      ⟨some 50, fun _ => none, fun _ => none, fun _ => none⟩ 777 1 50 rfl rfl).1
      (by norm_num)).1,
   (detectWhaleActivity_fallback
      ⟨some 50, fun _ => none, fun _ => none, fun _ => none⟩ 777 2 50 rfl rfl).2
      (by norm_num)⟩
